import Mathlib

/-!
Verification of the CsgoCases cache pipeline (`cache.py`).

The development shallowly embeds the pipeline: the per-item fetch-retry
loop (`process_case`), the bulk keyed upsert (`batch_insert_to_db`), the
worker sweep loop (`worker_thread`), startup catalog validation (`main`)
and the read endpoint (`get_cases`).  Network fetches are modelled as an
oracle `Nat → Option Resp` (attempt index to parsed JSON body, `none`
being a caught request exception), storage-statement failures as a
boolean oracle indexed by the worker's flush count, and wall-clock time
as an explicit `Nat` parameter.
-/

/-- A catalog entry from the case file: an object with a `name` and an
optional `image` key. -/
structure Item where
  name : String
  image : Option String
deriving DecidableEq, Repr

/-- Parsed JSON body of a successful price-overview response; each of the
three keys may be absent. -/
structure Resp where
  lowest_price : Option String
  volume : Option String
  median_price : Option String
deriving DecidableEq, Repr

/-- One row of the price table: the tuple built by `process_case`, in the
column order written by `batch_insert_to_db`
(`name, price, volume, median_price, picture_url, last_updated`). -/
structure PriceRecord where
  name : String
  price : String
  volume : String
  median_price : String
  picture_url : String
  last_updated : Nat
deriving DecidableEq, Repr

/-- The stored table, in row order (`SELECT *`). -/
abbrev DB := List PriceRecord

/-- Configuration options read from `config.json` that the pipeline core
uses. -/
structure Config where
  batch_size : Nat
  max_retries : Nat
  delay : Nat
  retry_delay : Nat
  initial_delay : Nat
  max_threads : Nat
deriving DecidableEq, Repr

/-- Record construction on fetch success: missing JSON keys default to
the sentinel "N/A" (`data.get(key, 'N/A')`), `picture_url` comes from the
item's optional `image` key, and `last_updated` is the completion time
`t` (`datetime.datetime.now()`). -/
def mkRecord (c : Item) (data : Resp) (t : Nat) : PriceRecord :=
  { name := c.name
    price := data.lowest_price.getD "N/A"
    volume := data.volume.getD "N/A"
    median_price := data.median_price.getD "N/A"
    picture_url := c.image.getD "N/A"
    last_updated := t }

/-- The `while retries < MAX_RETRIES` loop of `process_case`. `fetch k`
is the outcome of attempt number `k` (`none` models a caught
`requests.RequestException`).  Returns the first successful body (if
any), the number of fetch attempts issued, and the list of attempt
numbers printed by the per-attempt error log (the code logs
`attempt retries/MAX_RETRIES` after incrementing `retries`). -/
def retryLoop (fetch : Nat → Option Resp) : Nat → Nat → Option Resp × Nat × List Nat
  | _, 0 => (none, 0, [])
  | a, fuel + 1 =>
    match fetch a with
    | some d => (some d, 1, [])
    | none =>
      let r := retryLoop fetch (a + 1) fuel
      (r.1, r.2.1 + 1, (a + 1) :: r.2.2)

/-- `process_case(case, session)`: retry the fetch up to `max_retries`
times; on success build the record tuple, otherwise give up and return
`None`.  The attempt count and error-log attempt numbers are carried
along for the retry-bound properties. -/
def process_case (cfg : Config) (c : Item) (fetch : Nat → Option Resp) (t : Nat) :
    Option PriceRecord × Nat × List Nat :=
  let r := retryLoop fetch 0 cfg.max_retries
  (r.1.map (fun d => mkRecord c d t), r.2.1, r.2.2)

/-- Overwrite-on-conflict: the row with the conflicting key is replaced
by the incoming record (all non-key columns are set from `EXCLUDED`, and
the key itself is equal). -/
def replRow (b row : PriceRecord) : PriceRecord :=
  if row.name == b.name then b else row

/-- One `INSERT ... ON CONFLICT (name) DO UPDATE` statement: if some row
already has the record's name it is overwritten in place, otherwise the
record is inserted (appended). -/
def upsertRow (db : DB) (r : PriceRecord) : DB :=
  if db.any (fun row => row.name == r.name) then db.map (replRow r) else db ++ [r]

/-- Effect of a successful `executemany` over a batch: the upsert
statement is executed once per record, in batch order. -/
def flushBatch (batch : List PriceRecord) (db : DB) : DB :=
  batch.foldl upsertRow db

/-- `batch_insert_to_db(cases_batch, conn)`: does nothing on an empty
batch (`if cases_batch:`); otherwise the bulk upsert runs, and `ok =
false` models a `psycopg2` error raised by the statement (the flush
aborts and the error propagates to the caller). -/
def batch_insert_to_db (ok : Bool) (batch : List PriceRecord) (db : DB) : Except Unit DB :=
  if batch.isEmpty then .ok db
  else if ok then .ok (flushBatch batch db) else .error ()

/-- Worker-local state: the stored table as this worker's connection sees
it, the in-memory `cases_batch` buffer, and how many
`batch_insert_to_db` statements this worker has executed (used to index
the storage-failure oracle). -/
structure SweepState where
  db : DB
  batch : List PriceRecord
  flushes : Nat
deriving DecidableEq, Repr

/-- The tail of the per-item loop body in `worker_thread`: append the
processed record (if any) to `cases_batch`; then, when
`len(cases_batch) >= BATCH_SIZE`, call `batch_insert_to_db` and
`cases_batch.clear()`.  A `none` result models an uncaught storage
exception propagating out of the loop (there is no try/except around the
flush). -/
def stepAfterFetch (cfg : Config) (flushOk : Nat → Bool) (res : Option PriceRecord)
    (s : SweepState) : Option SweepState :=
  if cfg.batch_size ≤ (s.batch ++ res.toList).length then
    match batch_insert_to_db (flushOk s.flushes) (s.batch ++ res.toList) s.db with
    | .ok db1 => some ⟨db1, [], s.flushes + 1⟩
    | .error _ => none
  else some ⟨s.db, s.batch ++ res.toList, s.flushes⟩

/-- One iteration of `for case in case_list`: fetch-with-retry the item
(the oracle is keyed by item name and attempt number, `t` is the clock
at this position), then run the batch logic. -/
def stepItem (cfg : Config) (fetch : String → Nat → Option Resp) (flushOk : Nat → Bool)
    (t : Nat) (c : Item) (s : SweepState) : Option SweepState :=
  stepAfterFetch cfg flushOk (process_case cfg c (fetch c.name) t).1 s

/-- The full `for case in case_list` loop of one sweep; `idx` is the
position of the current item (used only to index the clock). -/
def sweepItems (cfg : Config) (fetch : String → Nat → Option Resp) (flushOk : Nat → Bool)
    (clock : Nat → Nat) : List Item → Nat → SweepState → Option SweepState
  | [], _, s => some s
  | c :: cs, idx, s =>
    match stepItem cfg fetch flushOk (clock idx) c s with
    | none => none
    | some s1 => sweepItems cfg fetch flushOk clock cs (idx + 1) s1

/-- One iteration of the `while True` loop in `worker_thread`: iterate
the catalog, then `if cases_batch: batch_insert_to_db(...)` — note the
source does not clear the batch after this end-of-sweep flush. -/
def sweep (cfg : Config) (fetch : String → Nat → Option Resp) (flushOk : Nat → Bool)
    (clock : Nat → Nat) (catalog : List Item) (s : SweepState) : Option SweepState :=
  match sweepItems cfg fetch flushOk clock catalog 0 s with
  | none => none
  | some s1 =>
    if s1.batch.isEmpty then some s1
    else
      match batch_insert_to_db (flushOk s1.flushes) s1.batch s1.db with
      | .ok db1 => some ⟨db1, s1.batch, s1.flushes + 1⟩
      | .error _ => none

/-- The `while True` loop of `worker_thread`, run for `fuel` sweeps
(`i` counts completed sweeps; the fetch and clock oracles may vary per
sweep).  After every completed sweep the worker executes `time.sleep(1)`
— the literal constant from the source — and the slept durations are
accumulated in `sleeps`.  A `none` result models the thread dying from
an uncaught exception. -/
def workerLoop (cfg : Config) (fetchAt : Nat → String → Nat → Option Resp)
    (flushOk : Nat → Bool) (clockAt : Nat → Nat → Nat) (catalog : List Item) :
    Nat → Nat → SweepState → List Nat → Option (SweepState × List Nat)
  | 0, _, s, sleeps => some (s, sleeps)
  | fuel + 1, i, s, sleeps =>
    match sweep cfg (fetchAt i) flushOk (clockAt i) catalog s with
    | none => none
    | some s1 => workerLoop cfg fetchAt flushOk clockAt catalog fuel (i + 1) s1 (sleeps ++ [1])

/-- Key column of each row, in table order. -/
def names (db : DB) : List String := db.map (fun r => r.name)

/-- Accumulator for the last record of a batch carrying a given name. -/
def lastAcc (n : String) (acc : Option PriceRecord) (r : PriceRecord) : Option PriceRecord :=
  if r.name == n then some r else acc

/-- The last record in `B` whose name is `n`, if any (the record whose
values survive after the whole batch is upserted). -/
def lastRec (B : List PriceRecord) (n : String) : Option PriceRecord :=
  B.foldl (lastAcc n) none

/-- Pointwise effect of flushing `B` on a row already present: the row is
overwritten by the last batch record with its name, if any. -/
def applyLast (B : List PriceRecord) (row : PriceRecord) : PriceRecord :=
  (lastRec B row.name).getD row

/-- The rows of `db` keyed by name `n`. -/
def filtName (n : String) (db : DB) : DB := db.filter (fun r => r.name == n)

/-- SQL `MIN(last_updated)` over the table: `NULL` (`none`) on an empty
table, otherwise the least timestamp. -/
def minLastUpdated : DB → Option Nat
  | [] => none
  | r :: rest =>
    match minLastUpdated rest with
    | none => some r.last_updated
    | some m => some (min r.last_updated m)

/-- JSON body returned by the read endpoint. -/
inductive ApiBody where
  | ok (last_updated : Option Nat) (cases : List PriceRecord)
  | err (msg : String)
deriving DecidableEq, Repr

/-- Read endpoint `get_cases` (`GET /getcases`): a successful query
returns HTTP 200 with `MIN(last_updated)` and all rows; a `psycopg2`
error is caught and returned as HTTP 500 with the error text.  The
storage interaction is modelled as an `Except`-valued query result. -/
def get_cases (query : Except String DB) : Nat × ApiBody :=
  match query with
  | .ok db => (200, .ok (minLastUpdated db) db)
  | .error e => (500, .err e)

/-- Outcome of loading the case file at startup: the file may be absent,
unparseable, or parse to a list of items. -/
inductive CatalogFile where
  | missing
  | malformed
  | parsed (items : List Item)
deriving DecidableEq, Repr

/-- What `main` produces before blocking on its threads: the reported
startup error (if any) and the stagger delay handed to each launched
worker thread. -/
structure StartOutcome where
  reportedError : Option String
  staggerDelays : List Nat
deriving DecidableEq, Repr

/-- Startup logic of `main`: a missing file, unparseable JSON, or an
empty list is reported and no worker threads are started; otherwise
`MAX_THREADS` workers are launched, the i-th with stagger delay
`i * INITIAL_DELAY`. -/
def main_startup (cfg : Config) (f : CatalogFile) : StartOutcome :=
  match f with
  | .missing => ⟨some "Error: case file not found.", []⟩
  | .malformed => ⟨some "Error: Failed to parse JSON from case file.", []⟩
  | .parsed items =>
    if items.length = 0 then ⟨some "Chosen file is blank", []⟩
    else ⟨none, (List.range cfg.max_threads).map (fun i => i * cfg.initial_delay)⟩

/-- Concrete catalog item used in the spec scenarios: `{"name":"Case A"}`
with no image key. -/
def caseA : Item := ⟨"Case A", none⟩

/-- Concrete fetch response body of the spec scenario. -/
def respFull : Resp := ⟨some "$1.23", some "500", some "$1.20"⟩

/-- The record the scenario fetch produces at clock 0. -/
def recFull : PriceRecord := ⟨"Case A", "$1.23", "500", "$1.20", "N/A", 0⟩

/-- Concrete configuration with `batch_size = 1`, `max_retries = 3`. -/
def cfgA : Config := ⟨1, 3, 5, 1, 2, 1⟩

/-- Concrete configuration with `batch_size = 2` (threshold never reached
by a one-item catalog). -/
def cfgB : Config := ⟨2, 3, 5, 1, 2, 1⟩

/-- Concrete configuration whose inter-sweep `delay` option is 7. -/
def cfg9 : Config := ⟨1, 3, 7, 1, 2, 1⟩

/-- Concrete configuration for the startup claim (two worker threads). -/
def cfg0 : Config := ⟨5, 3, 5, 1, 4, 2⟩

/-- Concrete stored row with timestamp 7. -/
def rowP : PriceRecord := ⟨"P", "$1", "10", "$1", "N/A", 7⟩

/-- Concrete stored row with timestamp 3. -/
def rowQ : PriceRecord := ⟨"Q", "$2", "20", "$2", "N/A", 3⟩

/-! ### Retry-loop lemmas -/

theorem retryLoop_attempts_le (fetch : Nat → Option Resp) :
    ∀ (fuel a : Nat), (retryLoop fetch a fuel).2.1 ≤ fuel := by
  intro fuel
  induction fuel with
  | zero => intro a; simp [retryLoop]
  | succ n ih =>
    intro a
    simp only [retryLoop]
    cases fetch a with
    | some d => simp
    | none =>
      simp only []
      have h := ih (a + 1)
      omega

theorem retryLoop_all_none (fetch : Nat → Option Resp) (hf : ∀ k, fetch k = none) :
    ∀ (fuel a : Nat),
      (retryLoop fetch a fuel).1 = none ∧ (retryLoop fetch a fuel).2.1 = fuel ∧
        (retryLoop fetch a fuel).2.2.length = fuel := by
  intro fuel
  induction fuel with
  | zero => intro a; simp [retryLoop]
  | succ n ih =>
    intro a
    simp only [retryLoop, hf a]
    obtain ⟨h1, h2, h3⟩ := ih (a + 1)
    simp [h1, h2, h3]

theorem process_case_all_none (cfg : Config) (c : Item) (fetch : Nat → Option Resp)
    (t : Nat) (hf : ∀ k, fetch k = none) :
    (process_case cfg c fetch t).1 = none ∧
      (process_case cfg c fetch t).2.1 = cfg.max_retries ∧
      (process_case cfg c fetch t).2.2.length = cfg.max_retries := by
  obtain ⟨h1, h2, h3⟩ := retryLoop_all_none fetch hf cfg.max_retries 0
  simp [process_case, h1, h2, h3]

theorem process_case_name (cfg : Config) (c : Item) (fetch : Nat → Option Resp) (t : Nat)
    (rec : PriceRecord) (h : (process_case cfg c fetch t).1 = some rec) :
    rec.name = c.name := by
  simp only [process_case] at h
  rcases hE : (retryLoop fetch 0 cfg.max_retries).1 with _ | d
  · rw [hE] at h; cases h
  · rw [hE] at h
    simp only [Option.map_some'] at h
    rw [← Option.some.inj h]
    rfl

theorem process_case_first_some (cfg : Config) (c : Item) (d : Resp) (t : Nat)
    (h : 1 ≤ cfg.max_retries) :
    (process_case cfg c (fun _ => some d) t).1 = some (mkRecord c d t) := by
  obtain ⟨m, hm⟩ : ∃ m, cfg.max_retries = m + 1 := ⟨cfg.max_retries - 1, by omega⟩
  simp [process_case, hm, retryLoop]

/-! ### MIN(last_updated) lemmas -/

theorem minLastUpdated_eq_none (db : DB) (h : minLastUpdated db = none) : db = [] := by
  cases db with
  | nil => rfl
  | cons r rest =>
    unfold minLastUpdated at h
    rcases hm : minLastUpdated rest with _ | m <;> rw [hm] at h <;> cases h

theorem minLastUpdated_le (db : DB) :
    ∀ (m : Nat), minLastUpdated db = some m → ∀ r ∈ db, m ≤ r.last_updated := by
  induction db with
  | nil => intro m _ r hr; cases hr
  | cons a rest ih =>
    intro m hm r hr
    unfold minLastUpdated at hm
    rcases hrest : minLastUpdated rest with _ | k <;> rw [hrest] at hm
    · obtain rfl := Option.some.inj hm
      have he := minLastUpdated_eq_none rest hrest
      subst he
      rcases List.mem_cons.mp hr with h1 | h1
      · rw [h1]
      · cases h1
    · obtain rfl := Option.some.inj hm
      rcases List.mem_cons.mp hr with h1 | h1
      · rw [h1]; exact Nat.min_le_left _ _
      · exact le_trans (Nat.min_le_right _ _) (ih k hrest r h1)

theorem minLastUpdated_mem (db : DB) (h : db ≠ []) :
    ∃ r ∈ db, minLastUpdated db = some r.last_updated := by
  induction db with
  | nil => exact absurd rfl h
  | cons a rest ih =>
    rcases hrest : minLastUpdated rest with _ | k
    · refine ⟨a, List.mem_cons_self a rest, ?_⟩
      unfold minLastUpdated
      rw [hrest]
    · have hne : rest ≠ [] := by
        intro he; rw [he] at hrest; cases hrest
      obtain ⟨r, hr, hmr⟩ := ih hne
      have hk : k = r.last_updated := by
        rw [hmr] at hrest; exact (Option.some.inj hrest).symm
      rcases le_total a.last_updated k with hle | hle
      · refine ⟨a, List.mem_cons_self a rest, ?_⟩
        unfold minLastUpdated
        rw [hrest]
        show some (min a.last_updated k) = some a.last_updated
        rw [min_eq_left hle]
      · refine ⟨r, List.mem_cons_of_mem a hr, ?_⟩
        unfold minLastUpdated
        rw [hrest]
        show some (min a.last_updated k) = some r.last_updated
        rw [min_eq_right hle, hk]

/-! ### Upsert and flush lemmas -/

theorem replRow_name (b row : PriceRecord) : (replRow b row).name = row.name := by
  unfold replRow
  split
  next h => simp only [beq_iff_eq] at h; exact h.symm
  next h => rfl

theorem names_map_replRow (b : PriceRecord) (db : DB) :
    names (db.map (replRow b)) = names db := by
  unfold names
  rw [List.map_map]
  exact List.map_congr_left (fun r _ => replRow_name b r)

theorem any_name_eq (db : DB) (n : String) :
    db.any (fun row => row.name == n) = true ↔ n ∈ names db := by
  simp only [List.any_eq_true, beq_iff_eq, names, List.mem_map]

theorem name_mem_names (db : DB) (row : PriceRecord) (h : row ∈ db) :
    row.name ∈ names db :=
  List.mem_map_of_mem _ h

theorem upsertRow_eq_map (db : DB) (r : PriceRecord) (h : r.name ∈ names db) :
    upsertRow db r = db.map (replRow r) := by
  unfold upsertRow
  rw [if_pos ((any_name_eq db r.name).mpr h)]

theorem upsertRow_eq_append (db : DB) (r : PriceRecord) (h : ¬ r.name ∈ names db) :
    upsertRow db r = db ++ [r] := by
  unfold upsertRow
  rw [if_neg (fun hc => h ((any_name_eq db r.name).mp hc))]

theorem names_append_one (db : DB) (r : PriceRecord) :
    names (db ++ [r]) = names db ++ [r.name] := by
  simp [names]

theorem mem_names_upsertRow (db : DB) (b : PriceRecord) (n : String) (h : n ∈ names db) :
    n ∈ names (upsertRow db b) := by
  by_cases hb : b.name ∈ names db
  · rw [upsertRow_eq_map db b hb, names_map_replRow]; exact h
  · rw [upsertRow_eq_append db b hb, names_append_one]; exact List.mem_append_left _ h

theorem self_mem_names_upsertRow (db : DB) (b : PriceRecord) :
    b.name ∈ names (upsertRow db b) := by
  by_cases hb : b.name ∈ names db
  · rw [upsertRow_eq_map db b hb, names_map_replRow]; exact hb
  · rw [upsertRow_eq_append db b hb, names_append_one]
    exact List.mem_append_right _ (List.mem_singleton.mpr rfl)

theorem flushBatch_cons (b : PriceRecord) (B : List PriceRecord) (db : DB) :
    flushBatch (b :: B) db = flushBatch B (upsertRow db b) := rfl

theorem mem_names_flushBatch_mono (B : List PriceRecord) :
    ∀ (db : DB) (n : String), n ∈ names db → n ∈ names (flushBatch B db) := by
  induction B with
  | nil => intro db n h; exact h
  | cons b B ih => intro db n h; exact ih _ _ (mem_names_upsertRow db b n h)

theorem mem_names_flushBatch (B : List PriceRecord) :
    ∀ (db : DB) (r : PriceRecord), r ∈ B → r.name ∈ names (flushBatch B db) := by
  induction B with
  | nil => intro _ _ h; cases h
  | cons b B ih =>
    intro db r hr
    rcases List.mem_cons.mp hr with h | h
    · rw [h, flushBatch_cons]
      exact mem_names_flushBatch_mono B _ _ (self_mem_names_upsertRow db b)
    · exact ih _ r h

theorem lastAcc_foldl_isSome (n : String) (B : List PriceRecord) :
    ∀ (x : PriceRecord), (B.foldl (lastAcc n) (some x)).isSome = true := by
  induction B with
  | nil => intro x; rfl
  | cons r B ih =>
    intro x
    rw [List.foldl_cons]
    have hr : lastAcc n (some x) r = if r.name == n then some r else some x := rfl
    rw [hr]
    split
    · exact ih _
    · exact ih _

theorem foldl_lastAcc_init (n : String) (B : List PriceRecord) :
    ∀ (a : Option PriceRecord),
      B.foldl (lastAcc n) a =
        match B.foldl (lastAcc n) none with
        | some x => some x
        | none => a := by
  induction B with
  | nil => intro a; rfl
  | cons r B ih =>
    intro a
    rw [List.foldl_cons, List.foldl_cons]
    by_cases h : (r.name == n) = true
    · have h1 : lastAcc n a r = some r := by unfold lastAcc; rw [if_pos h]
      have h2 : lastAcc n none r = some r := by unfold lastAcc; rw [if_pos h]
      rw [h1, h2]
      rcases ho : B.foldl (lastAcc n) (some r) with _ | y
      · have := lastAcc_foldl_isSome n B r
        rw [ho] at this
        cases this
      · rfl
    · have h1 : lastAcc n a r = a := by unfold lastAcc; rw [if_neg h]
      have h2 : lastAcc n none r = none := by unfold lastAcc; rw [if_neg h]
      rw [h1, h2]
      exact ih a

theorem lastRec_cons (b : PriceRecord) (B : List PriceRecord) (n : String) :
    lastRec (b :: B) n =
      match lastRec B n with
      | some x => some x
      | none => if b.name == n then some b else none := by
  unfold lastRec
  rw [List.foldl_cons]
  have h1 : lastAcc n none b = if b.name == n then some b else none := rfl
  rw [h1, foldl_lastAcc_init]

theorem mem_of_mem_upsertRow_ne (db : DB) (b row : PriceRecord)
    (h : row ∈ upsertRow db b) (hn : row.name ≠ b.name) : row ∈ db := by
  by_cases hb : b.name ∈ names db
  · rw [upsertRow_eq_map db b hb] at h
    rcases List.mem_map.mp h with ⟨x, hx, hxe⟩
    unfold replRow at hxe
    split at hxe
    · rw [← hxe] at hn
      exact absurd rfl hn
    · rw [← hxe]; exact hx
  · rw [upsertRow_eq_append db b hb] at h
    rcases List.mem_append.mp h with h1 | h1
    · exact h1
    · rw [List.mem_singleton.mp h1] at hn
      exact absurd rfl hn

theorem eq_of_mem_upsertRow_name (db : DB) (b row : PriceRecord)
    (h : row ∈ upsertRow db b) (hn : row.name = b.name) : row = b := by
  by_cases hb : b.name ∈ names db
  · rw [upsertRow_eq_map db b hb] at h
    rcases List.mem_map.mp h with ⟨x, hx, hxe⟩
    unfold replRow at hxe
    split at hxe
    · exact hxe.symm
    next hne =>
      rw [← hxe] at hn
      exact absurd (beq_iff_eq.mpr hn) hne
  · rw [upsertRow_eq_append db b hb] at h
    rcases List.mem_append.mp h with h1 | h1
    · exact absurd (hn ▸ name_mem_names db row h1) hb
    · exact List.mem_singleton.mp h1

theorem mem_db_of_lastRec_none (B : List PriceRecord) :
    ∀ (db : DB) (row : PriceRecord), row ∈ flushBatch B db →
      lastRec B row.name = none → row ∈ db := by
  induction B with
  | nil => intro db row h _; exact h
  | cons b B ih =>
    intro db row h hnone
    rw [lastRec_cons] at hnone
    rcases hB : lastRec B row.name with _ | x
    · rw [hB] at hnone
      by_cases hbn : (b.name == row.name) = true
      · rw [if_pos hbn] at hnone; cases hnone
      · rw [flushBatch_cons] at h
        refine mem_of_mem_upsertRow_ne db b row (ih _ _ h hB) ?_
        intro he
        exact hbn (beq_iff_eq.mpr he.symm)
    · rw [hB] at hnone; cases hnone

theorem eq_lastRec_of_mem_flushBatch (B : List PriceRecord) :
    ∀ (db : DB) (row x : PriceRecord), row ∈ flushBatch B db →
      lastRec B row.name = some x → row = x := by
  induction B with
  | nil => intro db row x _ hl; cases hl
  | cons b B ih =>
    intro db row x h hl
    rw [lastRec_cons] at hl
    rcases hB : lastRec B row.name with _ | y
    · rw [hB] at hl
      by_cases hbn : (b.name == row.name) = true
      · rw [if_pos hbn] at hl
        have hx : b = x := Option.some.inj hl
        rw [flushBatch_cons] at h
        have h1 : row ∈ upsertRow db b := mem_db_of_lastRec_none B _ row h hB
        have h2 : row = b :=
          eq_of_mem_upsertRow_name db b row h1 (beq_iff_eq.mp hbn).symm
        rw [h2, hx]
      · rw [if_neg hbn] at hl; cases hl
    · rw [hB] at hl
      rw [flushBatch_cons] at h
      rw [Option.some.inj hl] at hB
      exact ih _ row x h hB

theorem applyLast_nil (row : PriceRecord) : applyLast [] row = row := rfl

theorem applyLast_cons (b : PriceRecord) (B : List PriceRecord) (row : PriceRecord) :
    applyLast (b :: B) row = applyLast B (replRow b row) := by
  unfold applyLast
  rw [replRow_name, lastRec_cons]
  rcases hB : lastRec B row.name with _ | x
  · by_cases hbn : (b.name == row.name) = true
    · have h1 : replRow b row = b := by
        unfold replRow
        rw [if_pos (beq_iff_eq.mpr (beq_iff_eq.mp hbn).symm)]
      rw [h1]
      show (if b.name == row.name then some b else none).getD row = Option.getD none b
      rw [if_pos hbn]
      rfl
    · have h1 : replRow b row = row := by
        unfold replRow
        rw [if_neg (fun hc => hbn (beq_iff_eq.mpr (beq_iff_eq.mp hc).symm))]
      rw [h1]
      show (if b.name == row.name then some b else none).getD row = Option.getD none row
      rw [if_neg hbn]
  · rfl

theorem flushBatch_eq_map (B : List PriceRecord) :
    ∀ (db : DB), (∀ r ∈ B, r.name ∈ names db) →
      flushBatch B db = db.map (applyLast B) := by
  induction B with
  | nil =>
    intro db _
    have h1 : db.map (applyLast []) = db.map (fun row => row) :=
      List.map_congr_left (fun r _ => applyLast_nil r)
    rw [h1, List.map_id']
    rfl
  | cons b B ih =>
    intro db h
    have hb : b.name ∈ names db := h b (List.mem_cons_self b B)
    rw [flushBatch_cons, upsertRow_eq_map db b hb]
    have hB : ∀ r ∈ B, r.name ∈ names (db.map (replRow b)) := by
      intro r hr
      rw [names_map_replRow]
      exact h r (List.mem_cons_of_mem b hr)
    rw [ih _ hB, List.map_map]
    exact List.map_congr_left (fun r _ => (applyLast_cons b B r).symm)

theorem flushBatch_twice (B : List PriceRecord) (db : DB) :
    flushBatch B (flushBatch B db) = flushBatch B db := by
  have hsub : ∀ r ∈ B, r.name ∈ names (flushBatch B db) :=
    fun r hr => mem_names_flushBatch B db r hr
  rw [flushBatch_eq_map B _ hsub]
  have hid : ∀ row ∈ flushBatch B db, applyLast B row = row := by
    intro row hrow
    unfold applyLast
    rcases hl : lastRec B row.name with _ | x
    · rfl
    · rw [eq_lastRec_of_mem_flushBatch B db row x hrow hl]
      rfl
  exact (List.map_congr_left hid).trans (List.map_id _)

theorem batch_insert_true (B : List PriceRecord) (db : DB) :
    batch_insert_to_db true B db = Except.ok (flushBatch B db) := by
  unfold batch_insert_to_db
  by_cases h : B.isEmpty = true
  · rw [if_pos h]
    rw [List.isEmpty_iff.mp h]
    rfl
  · rw [if_neg h, if_pos rfl]

theorem batch_insert_ok_nonempty (ok : Bool) (B : List PriceRecord) (db db1 : DB)
    (hne : B.isEmpty = false) (h : batch_insert_to_db ok B db = Except.ok db1) :
    db1 = flushBatch B db := by
  unfold batch_insert_to_db at h
  rw [hne] at h
  cases ok with
  | false => cases h
  | true =>
    simp only [if_true] at h
    exact (Except.ok.inj h).symm

/-! ### Name-preservation lemmas for sweeps -/

theorem filtName_map_replRow (n : String) (b : PriceRecord) (hb : b.name ≠ n) (db : DB) :
    filtName n (db.map (replRow b)) = filtName n db := by
  induction db with
  | nil => rfl
  | cons x l ih =>
    rw [List.map_cons]
    unfold filtName at *
    rw [List.filter_cons, List.filter_cons, replRow_name]
    by_cases hx : (x.name == n) = true
    · rw [if_pos hx, if_pos hx, ih]
      have hxb : replRow b x = x := by
        unfold replRow
        refine if_neg (fun hc => hb ?_)
        rw [← beq_iff_eq.mp hc]
        exact beq_iff_eq.mp hx
      rw [hxb]
    · rw [if_neg hx, if_neg hx, ih]

theorem filtName_upsertRow (n : String) (b : PriceRecord) (hb : b.name ≠ n) (db : DB) :
    filtName n (upsertRow db b) = filtName n db := by
  by_cases h : b.name ∈ names db
  · rw [upsertRow_eq_map db b h]
    exact filtName_map_replRow n b hb db
  · rw [upsertRow_eq_append db b h]
    unfold filtName
    rw [List.filter_append]
    have h1 : List.filter (fun r => r.name == n) [b] = [] := by
      simp [hb]
    rw [h1, List.append_nil]

theorem filtName_flushBatch (n : String) (B : List PriceRecord) :
    ∀ (db : DB), (∀ r ∈ B, r.name ≠ n) →
      filtName n (flushBatch B db) = filtName n db := by
  induction B with
  | nil => intro db _; rfl
  | cons b B ih =>
    intro db hB
    rw [flushBatch_cons, ih (upsertRow db b) (fun r hr => hB r (List.mem_cons_of_mem b hr))]
    exact filtName_upsertRow n (b) (hB b (List.mem_cons_self b B)) db

theorem filtName_batch_insert (n : String) (ok : Bool) (B : List PriceRecord) (db db1 : DB)
    (hB : ∀ r ∈ B, r.name ≠ n) (h : batch_insert_to_db ok B db = Except.ok db1) :
    filtName n db1 = filtName n db := by
  unfold batch_insert_to_db at h
  by_cases he : B.isEmpty = true
  · rw [if_pos he] at h
    rw [← Except.ok.inj h]
  · rw [if_neg he] at h
    cases ok with
    | false => cases h
    | true =>
      simp only [if_true] at h
      rw [← Except.ok.inj h]
      exact filtName_flushBatch n B db hB

/-! ### Sweep-level lemmas -/

theorem stepAfterFetch_threshold (cfg : Config) (flushOk : Nat → Bool)
    (res : Option PriceRecord) (s s1 : SweepState)
    (h : stepAfterFetch cfg flushOk res s = some s1)
    (hth : cfg.batch_size ≤ (s.batch ++ res.toList).length) :
    s1.flushes = s.flushes + 1 ∧ s1.batch = [] := by
  unfold stepAfterFetch at h
  rw [if_pos hth] at h
  rcases hE : batch_insert_to_db (flushOk s.flushes) (s.batch ++ res.toList) s.db with _ | db1
  · rw [hE] at h; cases h
  · rw [hE] at h
    rw [← Option.some.inj h]
    exact ⟨rfl, rfl⟩

theorem stepAfterFetch_filt (cfg : Config) (flushOk : Nat → Bool) (n : String)
    (res : Option PriceRecord) (s s1 : SweepState)
    (hres : ∀ r, res = some r → r.name ≠ n)
    (hb : ∀ r ∈ s.batch, r.name ≠ n)
    (h : stepAfterFetch cfg flushOk res s = some s1) :
    filtName n s1.db = filtName n s.db ∧ ∀ r ∈ s1.batch, r.name ≠ n := by
  have hbatch1 : ∀ r ∈ s.batch ++ res.toList, r.name ≠ n := by
    intro r hr
    rcases List.mem_append.mp hr with h1 | h1
    · exact hb r h1
    · cases res with
      | none => cases h1
      | some x =>
        have hx : r = x := List.mem_singleton.mp h1
        rw [hx]
        exact hres x rfl
  unfold stepAfterFetch at h
  by_cases hth : cfg.batch_size ≤ (s.batch ++ res.toList).length
  · rw [if_pos hth] at h
    rcases hE : batch_insert_to_db (flushOk s.flushes) (s.batch ++ res.toList) s.db with _ | db1
    · rw [hE] at h; cases h
    · rw [hE] at h
      rw [← Option.some.inj h]
      refine ⟨filtName_batch_insert n _ _ s.db db1 hbatch1 hE, ?_⟩
      intro r hr
      cases hr
  · rw [if_neg hth] at h
    rw [← Option.some.inj h]
    exact ⟨rfl, hbatch1⟩

theorem stepItem_filt (cfg : Config) (fetch : String → Nat → Option Resp)
    (flushOk : Nat → Bool) (t : Nat) (c : Item) (n : String)
    (hf : ∀ k, fetch n k = none) (s s1 : SweepState)
    (hb : ∀ r ∈ s.batch, r.name ≠ n)
    (h : stepItem cfg fetch flushOk t c s = some s1) :
    filtName n s1.db = filtName n s.db ∧ ∀ r ∈ s1.batch, r.name ≠ n := by
  unfold stepItem at h
  refine stepAfterFetch_filt cfg flushOk n _ s s1 ?_ hb h
  intro r hres he
  have hname : r.name = c.name := process_case_name cfg c (fetch c.name) t r hres
  have hc : c.name = n := by rw [← hname]; exact he
  have hnone : (process_case cfg c (fetch c.name) t).1 = none := by
    refine (process_case_all_none cfg c (fetch c.name) t ?_).1
    intro k
    rw [hc]
    exact hf k
  rw [hnone] at hres
  cases hres

theorem sweepItems_filt (cfg : Config) (fetch : String → Nat → Option Resp)
    (flushOk : Nat → Bool) (clock : Nat → Nat) (n : String)
    (hf : ∀ k, fetch n k = none) :
    ∀ (items : List Item) (idx : Nat) (s s1 : SweepState),
      (∀ r ∈ s.batch, r.name ≠ n) →
      sweepItems cfg fetch flushOk clock items idx s = some s1 →
      filtName n s1.db = filtName n s.db ∧ ∀ r ∈ s1.batch, r.name ≠ n := by
  intro items
  induction items with
  | nil =>
    intro idx s s1 hb h
    rw [← Option.some.inj h]
    exact ⟨rfl, hb⟩
  | cons c cs ih =>
    intro idx s s1 hb h
    simp only [sweepItems] at h
    rcases hS : stepItem cfg fetch flushOk (clock idx) c s with _ | s2
    · rw [hS] at h; cases h
    · rw [hS] at h
      obtain ⟨k1, k2⟩ := stepItem_filt cfg fetch flushOk (clock idx) c n hf s s2 hb hS
      obtain ⟨k3, k4⟩ := ih (idx + 1) s2 s1 k2 h
      exact ⟨k3.trans k1, k4⟩

theorem sweep_filt (cfg : Config) (fetch : String → Nat → Option Resp)
    (flushOk : Nat → Bool) (clock : Nat → Nat) (catalog : List Item)
    (s s' : SweepState) (n : String)
    (hf : ∀ k, fetch n k = none)
    (hb : ∀ r ∈ s.batch, r.name ≠ n)
    (h : sweep cfg fetch flushOk clock catalog s = some s') :
    filtName n s'.db = filtName n s.db := by
  unfold sweep at h
  rcases hS : sweepItems cfg fetch flushOk clock catalog 0 s with _ | s1
  · rw [hS] at h; cases h
  · rw [hS] at h
    obtain ⟨k1, k2⟩ := sweepItems_filt cfg fetch flushOk clock n hf catalog 0 s s1 hb hS
    have h2 : (if s1.batch.isEmpty = true then some s1
        else match batch_insert_to_db (flushOk s1.flushes) s1.batch s1.db with
          | Except.ok db1 => some (⟨db1, s1.batch, s1.flushes + 1⟩ : SweepState)
          | Except.error e => none) = some s' := h
    by_cases he : s1.batch.isEmpty = true
    · rw [if_pos he] at h2
      rw [← Option.some.inj h2]
      exact k1
    · rw [if_neg he] at h2
      rcases hE : batch_insert_to_db (flushOk s1.flushes) s1.batch s1.db with _ | db1
      · rw [hE] at h2; cases h2
      · rw [hE] at h2
        rw [← Option.some.inj h2]
        exact (filtName_batch_insert n _ _ s1.db db1 k2 hE).trans k1

theorem sweep_batch_persisted (cfg : Config) (fetch : String → Nat → Option Resp)
    (flushOk : Nat → Bool) (clock : Nat → Nat) (catalog : List Item)
    (s s' : SweepState)
    (h : sweep cfg fetch flushOk clock catalog s = some s') :
    ∀ r ∈ s'.batch, r.name ∈ names s'.db := by
  unfold sweep at h
  rcases hS : sweepItems cfg fetch flushOk clock catalog 0 s with _ | s1
  · rw [hS] at h; cases h
  · rw [hS] at h
    have h2 : (if s1.batch.isEmpty = true then some s1
        else match batch_insert_to_db (flushOk s1.flushes) s1.batch s1.db with
          | Except.ok db1 => some (⟨db1, s1.batch, s1.flushes + 1⟩ : SweepState)
          | Except.error e => none) = some s' := h
    by_cases he : s1.batch.isEmpty = true
    · rw [if_pos he] at h2
      rw [← Option.some.inj h2]
      intro r hr
      rw [List.isEmpty_iff.mp he] at hr
      cases hr
    · rw [if_neg he] at h2
      rcases hE : batch_insert_to_db (flushOk s1.flushes) s1.batch s1.db with _ | db1
      · rw [hE] at h2; cases h2
      · rw [hE] at h2
        rw [← Option.some.inj h2]
        intro r hr
        have hd : db1 = flushBatch s1.batch s1.db :=
          batch_insert_ok_nonempty _ _ _ _ (Bool.eq_false_iff.mpr he) hE
        rw [hd]
        exact mem_names_flushBatch s1.batch s1.db r hr

/-! ### Worker survival under error-free storage -/

theorem stepAfterFetch_isSome (cfg : Config) (flushOk : Nat → Bool)
    (res : Option PriceRecord) (s : SweepState) (hok : flushOk s.flushes = true) :
    (stepAfterFetch cfg flushOk res s).isSome = true := by
  unfold stepAfterFetch
  by_cases hth : cfg.batch_size ≤ (s.batch ++ res.toList).length
  · rw [if_pos hth, hok, batch_insert_true]
    rfl
  · rw [if_neg hth]
    rfl

theorem sweepItems_isSome (cfg : Config) (fetch : String → Nat → Option Resp)
    (flushOk : Nat → Bool) (clock : Nat → Nat) (hok : ∀ m, flushOk m = true) :
    ∀ (items : List Item) (idx : Nat) (s : SweepState),
      (sweepItems cfg fetch flushOk clock items idx s).isSome = true := by
  intro items
  induction items with
  | nil => intro idx s; rfl
  | cons c cs ih =>
    intro idx s
    simp only [sweepItems]
    have hstep := stepAfterFetch_isSome cfg flushOk
      ((process_case cfg c (fetch c.name) (clock idx)).1) s (hok s.flushes)
    rcases hS : stepItem cfg fetch flushOk (clock idx) c s with _ | s1
    · unfold stepItem at hS
      rw [hS] at hstep
      exact hstep
    · exact ih (idx + 1) s1

theorem sweep_isSome (cfg : Config) (fetch : String → Nat → Option Resp)
    (flushOk : Nat → Bool) (clock : Nat → Nat) (hok : ∀ m, flushOk m = true)
    (catalog : List Item) (s : SweepState) :
    (sweep cfg fetch flushOk clock catalog s).isSome = true := by
  unfold sweep
  rcases hS : sweepItems cfg fetch flushOk clock catalog 0 s with _ | s1
  · have := sweepItems_isSome cfg fetch flushOk clock hok catalog 0 s
    rw [hS] at this
    exact this
  · show (if s1.batch.isEmpty = true then some s1
        else match batch_insert_to_db (flushOk s1.flushes) s1.batch s1.db with
          | Except.ok db1 => some (⟨db1, s1.batch, s1.flushes + 1⟩ : SweepState)
          | Except.error e => none).isSome = true
    by_cases he : s1.batch.isEmpty = true
    · rw [if_pos he]
      rfl
    · rw [if_neg he, hok s1.flushes, batch_insert_true]
      rfl

theorem workerLoop_isSome (cfg : Config) (fetchAt : Nat → String → Nat → Option Resp)
    (flushOk : Nat → Bool) (clockAt : Nat → Nat → Nat) (catalog : List Item)
    (hok : ∀ m, flushOk m = true) :
    ∀ (fuel i : Nat) (s : SweepState) (sleeps : List Nat),
      (workerLoop cfg fetchAt flushOk clockAt catalog fuel i s sleeps).isSome = true := by
  intro fuel
  induction fuel with
  | zero => intro i s sleeps; rfl
  | succ m ih =>
    intro i s sleeps
    simp only [workerLoop]
    rcases hS : sweep cfg (fetchAt i) flushOk (clockAt i) catalog s with _ | s1
    · have := sweep_isSome cfg (fetchAt i) flushOk (clockAt i) hok catalog s
      rw [hS] at this
      exact this
    · exact ih (i + 1) s1 (sleeps ++ [1])

/-! ### Claim theorems -/

/-- Claim C1, counterexample: with a one-item catalog, `batch_size = 1`,
a successful fetch, and a storage layer whose statements fail, the
worker loop terminates (the uncaught flush exception propagates) instead
of continuing with subsequent items and sweeps. -/
theorem c1_counterexample :
    workerLoop cfgA (fun _ _ _ => some respFull) (fun _ => false) (fun _ _ => 0) [caseA] 2 0
      ⟨[], [], 0⟩ [] = none := by decide

/-- Claim C1 (amended): a per-item fetch failure never terminates a
Worker's loop — if every storage statement succeeds the loop survives any
number of sweeps, whatever the fetch oracle does — but a storage error
raised during a batch flush is not caught: it propagates out of
`worker_thread` and terminates that Worker's loop, as in the concrete
failing run of the second conjunct. -/
theorem c1_amended :
    (∀ (cfg : Config) (fetchAt : Nat → String → Nat → Option Resp) (flushOk : Nat → Bool)
        (clockAt : Nat → Nat → Nat) (catalog : List Item) (fuel i : Nat) (s : SweepState)
        (sleeps : List Nat), (∀ m, flushOk m = true) →
        (workerLoop cfg fetchAt flushOk clockAt catalog fuel i s sleeps).isSome = true)
    ∧ workerLoop cfgA (fun _ _ _ => some respFull) (fun _ => false) (fun _ _ => 0) [caseA] 1 0
        ⟨[], [], 0⟩ [] = none := by
  constructor
  · intro cfg fetchAt flushOk clockAt catalog fuel i s sleeps hok
    exact workerLoop_isSome cfg fetchAt flushOk clockAt catalog hok fuel i s sleeps
  · decide

/-- Claim C1, witness for the amended theorem: a concrete two-sweep run
with an always-successful storage layer survives. -/
theorem c1_witness :
    (workerLoop cfgA (fun _ _ _ => some respFull) (fun _ => true) (fun _ _ => 0) [caseA] 2 0
      ⟨[], [], 0⟩ []).isSome = true :=
  c1_amended.1 cfgA (fun _ _ _ => some respFull) (fun _ => true) (fun _ _ => 0) [caseA] 2 0
    ⟨[], [], 0⟩ [] (fun _ => rfl)

/-- Claim C2, counterexample: a sweep over a one-item catalog with
`batch_size = 2` ends with a successful end-of-sweep flush (the record is
in the stored table and the flush count is 1), yet the batch buffer still
holds the record — the buffer is not empty when the next sweep begins. -/
theorem c2_counterexample :
    sweep cfgB (fun _ _ => some respFull) (fun _ => true) (fun _ => 0) [caseA] ⟨[], [], 0⟩
        = some ⟨[recFull], [recFull], 1⟩
      ∧ ([recFull] : List PriceRecord) ≠ [] := by decide

/-- Claim C2 (amended): after a threshold-triggered flush the batch
buffer is cleared, but the end-of-sweep flush does not clear it: records
below threshold remain in the buffer when the next sweep begins.  Every
record still in the buffer after a successful sweep has, however, already
been persisted (its name is present in the stored table). -/
theorem c2_amended :
    (∀ (cfg : Config) (flushOk : Nat → Bool) (res : Option PriceRecord) (s s1 : SweepState),
        stepAfterFetch cfg flushOk res s = some s1 →
        cfg.batch_size ≤ (s.batch ++ res.toList).length → s1.batch = [])
    ∧ (∀ (cfg : Config) (fetch : String → Nat → Option Resp) (flushOk : Nat → Bool)
        (clock : Nat → Nat) (catalog : List Item) (s s' : SweepState),
        sweep cfg fetch flushOk clock catalog s = some s' →
        ∀ r ∈ s'.batch, r.name ∈ names s'.db) := by
  constructor
  · intro cfg flushOk res s s1 h hth
    exact (stepAfterFetch_threshold cfg flushOk res s s1 h hth).2
  · intro cfg fetch flushOk clock catalog s s' h
    exact sweep_batch_persisted cfg fetch flushOk clock catalog s s' h

/-- Claim C2, witness: the threshold-clearing part applied to a concrete
step, and the persistence part applied to the concrete sweep that leaves
a record in the buffer. -/
theorem c2_witness :
    (([] : List PriceRecord) = []) ∧ recFull.name ∈ names [recFull] :=
  ⟨c2_amended.1 cfgA (fun _ => true) (some recFull) ⟨[], [], 0⟩ ⟨[recFull], [], 1⟩
      (by decide) (by decide),
   c2_amended.2 cfgB (fun _ _ => some respFull) (fun _ => true) (fun _ => 0) [caseA]
      ⟨[], [], 0⟩ ⟨[recFull], [recFull], 1⟩ (by decide) recFull (by decide)⟩

/-- Claim C3: `process_case` issues at most `max_retries` fetch attempts;
when every attempt fails it returns no record, issues exactly
`max_retries` attempts and logs exactly `max_retries` per-attempt errors;
and in a sweep whose fetches for a name all fail, the stored rows keyed
by that name are unchanged (no StoredRow is created or updated for that
item), provided the buffer holds no record of that name at sweep start. -/
theorem c3_retry_bound :
    (∀ (cfg : Config) (c : Item) (fetch : Nat → Option Resp) (t : Nat),
        (process_case cfg c fetch t).2.1 ≤ cfg.max_retries)
    ∧ (∀ (cfg : Config) (c : Item) (fetch : Nat → Option Resp) (t : Nat),
        (∀ k, fetch k = none) →
        (process_case cfg c fetch t).1 = none ∧
          (process_case cfg c fetch t).2.1 = cfg.max_retries ∧
          (process_case cfg c fetch t).2.2.length = cfg.max_retries)
    ∧ (∀ (cfg : Config) (fetch : String → Nat → Option Resp) (flushOk : Nat → Bool)
        (clock : Nat → Nat) (catalog : List Item) (s s' : SweepState) (n : String),
        (∀ k, fetch n k = none) → (∀ r ∈ s.batch, r.name ≠ n) →
        sweep cfg fetch flushOk clock catalog s = some s' →
        filtName n s'.db = filtName n s.db) := by
  refine ⟨?_, ?_, ?_⟩
  · intro cfg c fetch t
    exact retryLoop_attempts_le fetch cfg.max_retries 0
  · intro cfg c fetch t hf
    exact process_case_all_none cfg c fetch t hf
  · intro cfg fetch flushOk clock catalog s s' n hf hb h
    exact sweep_filt cfg fetch flushOk clock catalog s s' n hf hb h

/-- Claim C3, witness: with `max_retries = 3` and an always-failing
fetch, exactly 3 attempts are made and logged and no record is produced;
the sweep-level part applied to a concrete all-failing one-item sweep. -/
theorem c3_witness :
    ((process_case cfgA caseA (fun _ => none) 0).1 = none ∧
      (process_case cfgA caseA (fun _ => none) 0).2.1 = cfgA.max_retries ∧
      (process_case cfgA caseA (fun _ => none) 0).2.2.length = cfgA.max_retries) ∧
    filtName "Case A" (⟨[], [], 0⟩ : SweepState).db
      = filtName "Case A" (⟨[], [], 0⟩ : SweepState).db :=
  ⟨c3_retry_bound.2.1 cfgA caseA (fun _ => none) 0 (fun _ => rfl),
   c3_retry_bound.2.2 cfgA (fun _ _ => none) (fun _ => true) (fun _ => 0) [caseA]
     ⟨[], [], 0⟩ ⟨[], [], 0⟩ "Case A" (fun _ => rfl)
     (fun r hr => absurd hr (List.not_mem_nil r)) (by decide)⟩

/-- Claim C4: whenever appending the processed record makes the batch
reach `batch_size` and the step completes, exactly one flush was
performed (the flush count increases by exactly one) and the batch buffer
is empty immediately afterwards. -/
theorem c4_threshold_flush :
    ∀ (cfg : Config) (flushOk : Nat → Bool) (res : Option PriceRecord) (s s1 : SweepState),
      stepAfterFetch cfg flushOk res s = some s1 →
      cfg.batch_size ≤ (s.batch ++ res.toList).length →
      s1.flushes = s.flushes + 1 ∧ s1.batch = [] := by
  intro cfg flushOk res s s1 h hth
  exact stepAfterFetch_threshold cfg flushOk res s s1 h hth

/-- Claim C4, witness: a concrete step with `batch_size = 1` where the
record arrives, triggering one flush and leaving the buffer empty. -/
theorem c4_witness : (1 : Nat) = 0 + 1 ∧ ([] : List PriceRecord) = [] :=
  c4_threshold_flush cfgA (fun _ => true) (some recFull) ⟨[], [], 0⟩ ⟨[recFull], [], 1⟩
    (by decide) (by decide)

/-- Claim C5: on a successful storage query the read endpoint returns
HTTP 200 with `last_updated` the minimum timestamp over all rows (the
minimum is a lower bound and is attained on a non-empty table) and with
every stored row in `cases`; on a storage failure it returns HTTP 500
with the error message. -/
theorem c5_read_endpoint :
    (∀ db : DB, get_cases (Except.ok db) = (200, ApiBody.ok (minLastUpdated db) db))
    ∧ (∀ (db : DB) (m : Nat), minLastUpdated db = some m → ∀ r ∈ db, m ≤ r.last_updated)
    ∧ (∀ db : DB, db ≠ [] → ∃ r ∈ db, minLastUpdated db = some r.last_updated)
    ∧ (∀ e : String, get_cases (Except.error e) = (500, ApiBody.err e)) :=
  ⟨fun _ => rfl, minLastUpdated_le, minLastUpdated_mem, fun _ => rfl⟩

/-- Claim C5, witness: on a concrete two-row table the reported minimum 3
bounds the timestamp 7 of the other row and is attained. -/
theorem c5_witness :
    (3 : Nat) ≤ 7 ∧ ∃ r ∈ [rowP, rowQ], minLastUpdated [rowP, rowQ] = some r.last_updated :=
  ⟨c5_read_endpoint.2.1 [rowP, rowQ] 3 (by decide) rowP (by decide),
   c5_read_endpoint.2.2.1 [rowP, rowQ] (by decide)⟩

/-- Claim C6: the spec scenario — a one-item catalog `[{"name":"Case A"}]`
with `batch_size = 1` and the fetch body
`{"lowest_price":"$1.23","volume":"500","median_price":"$1.20"}` —
produces exactly one stored row with those fields (and sentinel
`picture_url`); a fetch success always yields a record (missing keys do
not cause a failure); and a body with all keys missing yields the
sentinel "N/A" in every optional field. -/
theorem c6_scenario :
    sweep cfgA (fun _ _ => some respFull) (fun _ => true) (fun _ => 0) [caseA] ⟨[], [], 0⟩
        = some ⟨[recFull], [], 1⟩
    ∧ (∀ (c : Item) (t : Nat) (d : Resp) (cfg : Config), 1 ≤ cfg.max_retries →
        (process_case cfg c (fun _ => some d) t).1 = some (mkRecord c d t))
    ∧ (∀ (c : Item) (t : Nat),
        mkRecord c ⟨none, none, none⟩ t
          = ⟨c.name, "N/A", "N/A", "N/A", c.image.getD "N/A", t⟩) := by
  refine ⟨by decide, ?_, ?_⟩
  · intro c t d cfg h
    exact process_case_first_some cfg c d t h
  · intro c t
    rfl

/-- Claim C6, witness: the fetch-success part applied at the concrete
scenario inputs. -/
theorem c6_witness :
    (process_case cfgA caseA (fun _ => some respFull) 5).1 = some (mkRecord caseA respFull 5) :=
  c6_scenario.2.1 caseA 5 respFull cfgA (by decide)

/-- Claim C7: the bulk upsert is idempotent — flushing the same batch
twice leaves the stored table exactly as flushing it once, from any
starting table — and a successful `batch_insert_to_db` performs exactly
the per-record keyed upsert fold. -/
theorem c7_upsert_idempotent :
    (∀ (B : List PriceRecord) (db : DB),
        flushBatch B (flushBatch B db) = flushBatch B db)
    ∧ (∀ (B : List PriceRecord) (db : DB),
        batch_insert_to_db true B db = Except.ok (flushBatch B db)) :=
  ⟨flushBatch_twice, batch_insert_true⟩

/-- Claim C8: at startup a missing case file, a malformed case file, or
an empty catalog is reported as an error and zero workers are started;
a non-empty parsed catalog starts `max_threads` workers with no error;
and whenever any worker is started the catalog was parsed and non-empty. -/
theorem c8_startup :
    (∀ cfg : Config, (main_startup cfg .missing).staggerDelays.length = 0 ∧
        (main_startup cfg .missing).reportedError.isSome = true)
    ∧ (∀ cfg : Config, (main_startup cfg .malformed).staggerDelays.length = 0 ∧
        (main_startup cfg .malformed).reportedError.isSome = true)
    ∧ (∀ cfg : Config, (main_startup cfg (.parsed [])).staggerDelays.length = 0 ∧
        (main_startup cfg (.parsed [])).reportedError.isSome = true)
    ∧ (∀ (cfg : Config) (items : List Item), items ≠ [] →
        (main_startup cfg (.parsed items)).reportedError = none ∧
        (main_startup cfg (.parsed items)).staggerDelays.length = cfg.max_threads)
    ∧ (∀ (cfg : Config) (f : CatalogFile), (main_startup cfg f).staggerDelays ≠ [] →
        f ≠ .missing ∧ f ≠ .malformed ∧ ∀ items, f = .parsed items → items ≠ []) := by
  refine ⟨fun cfg => ⟨rfl, rfl⟩, fun cfg => ⟨rfl, rfl⟩, fun cfg => ⟨rfl, rfl⟩, ?_, ?_⟩
  · intro cfg items hne
    have hlen : ¬ items.length = 0 := fun h0 => hne (List.length_eq_zero.mp h0)
    show (if items.length = 0 then (⟨some "Chosen file is blank", []⟩ : StartOutcome)
          else ⟨none, (List.range cfg.max_threads).map
            (fun i => i * cfg.initial_delay)⟩).reportedError = none
      ∧ (if items.length = 0 then (⟨some "Chosen file is blank", []⟩ : StartOutcome)
          else ⟨none, (List.range cfg.max_threads).map
            (fun i => i * cfg.initial_delay)⟩).staggerDelays.length = cfg.max_threads
    rw [if_neg hlen]
    exact ⟨rfl, by simp⟩
  · intro cfg f hw
    cases f with
    | missing => exact absurd rfl hw
    | malformed => exact absurd rfl hw
    | parsed items =>
      refine ⟨fun hc => CatalogFile.noConfusion hc, fun hc => CatalogFile.noConfusion hc, ?_⟩
      intro items2 heq hnil
      obtain rfl := CatalogFile.parsed.inj heq
      subst hnil
      exact hw rfl

/-- Claim C8, witness: a concrete two-thread configuration with a
one-item catalog starts both workers and reports no error. -/
theorem c8_witness :
    (main_startup cfg0 (.parsed [caseA])).reportedError = none ∧
      (main_startup cfg0 (.parsed [caseA])).staggerDelays.length = cfg0.max_threads :=
  c8_startup.2.2.2.1 cfg0 [caseA] (by decide)

/-- Claim C9 (the code hardcodes the inter-sweep sleep): with the
`delay` configuration option set to 7, a completed sweep is followed by a
sleep of 1 second — the literal `time.sleep(1)` of `worker_thread` — not
by a sleep of the configured delay. -/
theorem c9_sleep_literal :
    workerLoop cfg9 (fun _ _ _ => some respFull) (fun _ => true) (fun _ _ => 0) [caseA] 1 0
        ⟨[], [], 0⟩ [] = some (⟨[recFull], [], 1⟩, [1])
      ∧ cfg9.delay = 7 := by
  exact ⟨by decide, rfl⟩

/-- Claim C10: on an empty stored table the read endpoint succeeds with
HTTP 200, a `null` (`none`) `last_updated` and an empty `cases` list. -/
theorem c10_empty_table :
    get_cases (Except.ok ([] : DB)) = (200, ApiBody.ok none []) := rfl
